import Mathlib

set_option maxRecDepth 100000

/-!
Verification of `examples/nrf52840/build.rs` (the LoRaWAN key materializer).

Rust strings are modelled at the byte level: a `&str` value is its UTF-8
byte sequence, a `List Nat` with every element below 256 (all bytes that
matter to the claims are ASCII). `s.len()` is the byte length,
`s.get(i..j)` is the checked slice that also checks UTF-8 char
boundaries, and `u8::from_str_radix(sub, 16)` is modelled including its
acceptance of a leading plus sign and its overflow check.
-/

/-- Value of one hex digit byte under `char::to_digit(16)`:
digits `0`-`9`, `a`-`f`, `A`-`F` (ASCII codes), anything else fails. -/
def hexDigitVal (b : Nat) : Option Nat :=
  if 48 ≤ b ∧ b ≤ 57 then some (b - 48)
  else if 97 ≤ b ∧ b ≤ 102 then some (b - 87)
  else if 65 ≤ b ∧ b ≤ 70 then some (b - 55)
  else none

/-- Digit-accumulation loop of `u8::from_str_radix` in base 16: each byte
must be a hex digit, and the running `u8` value must not overflow 255
(`checked_mul` / `checked_add`). -/
def parseDigitsAcc : List Nat → Nat → Option Nat
  | [], acc => some acc
  | b :: rest, acc =>
    (hexDigitVal b).bind fun d =>
      if 16 * acc + d ≤ 255 then parseDigitsAcc rest (16 * acc + d) else none

/-- Model of `u8::from_str_radix(s, 16).ok()` on the byte slice `s`:
an optional leading `+` (byte 43) is accepted when followed by at least
one digit; a `-` or any non-digit byte fails; overflow past 255 fails. -/
def fromStrRadix16 : List Nat → Option Nat
  | [] => none
  | b :: rest =>
    if b = 43 then
      if rest.isEmpty then none else parseDigitsAcc rest 0
    else parseDigitsAcc (b :: rest) 0

/-- UTF-8 continuation byte test: `0x80 ≤ b < 0xC0`. -/
def isCont (b : Nat) : Bool :=
  decide (128 ≤ b ∧ b < 192)

/-- Model of `str::is_char_boundary`: position 0 is a boundary, the end
of the string is a boundary, an interior position is a boundary iff its
byte is not a UTF-8 continuation byte, and positions past the end are
not boundaries. -/
def isCharBoundary (s : List Nat) (i : Nat) : Bool :=
  if i = 0 then true
  else if i = s.length then true
  else if i < s.length then ! isCont (s.getD i 0)
  else false

/-- Model of the checked slice `s.get(i..j)`: succeeds iff `i ≤ j`,
`j ≤ s.len()` and both ends are char boundaries; never panics. -/
def strGet (s : List Nat) (i j : Nat) : Option (List Nat) :=
  if i ≤ j ∧ j ≤ s.length ∧ isCharBoundary s i = true ∧ isCharBoundary s j = true
  then some ((s.drop i).take (j - i)) else none

/-- One step of the iterator body in `hex_to_bytes`:
`s.get(i..i + 2).and_then(.. from_str_radix .. 16 .. ok)`. -/
def pairAt (s : List Nat) (i : Nat) : Option Nat :=
  (strGet s i (i + 2)).bind fromStrRadix16

/-- `collect::<Option<Vec<u8>>>()` over the listed start indices: all
steps must succeed, results kept in order. -/
def mapCollect (s : List Nat) : List Nat → Option (List Nat)
  | [] => some []
  | i :: idxs =>
    match pairAt s i, mapCollect s idxs with
    | some b, some bs => some (b :: bs)
    | _, _ => none

/-- Model of `hex_to_bytes` from `build.rs`: when the byte length is
even, run the pair parser at indices 0, 2, ..., len - 2 and collect;
otherwise return `none`. -/
def hex_to_bytes (s : List Nat) : Option (List Nat) :=
  if s.length % 2 = 0 then
    mapCollect s ((List.range (s.length / 2)).map (fun k => 2 * k))
  else none

/-- Specification-level parse of one two-byte chunk, written from the
observed `from_str_radix` grammar: two hex digits give `16 * d1 + d2`,
a `+` (byte 43) followed by one hex digit gives that digit, everything
else fails. -/
def specPair (a b : Nat) : Option Nat :=
  match hexDigitVal a, hexDigitVal b with
  | some d1, some d2 => some (16 * d1 + d2)
  | none, some d2 => if a = 43 then some d2 else none
  | _, none => none

/-- Specification-level hex decoder: consume the byte string two bytes
at a time with `specPair`; odd-length strings fail. -/
def specDecode : List Nat → Option (List Nat)
  | [] => some []
  | [_] => none
  | a :: b :: t =>
    match specPair a b, specDecode t with
    | some v, some vs => some (v :: vs)
    | _, _ => none

/-- UTF-8 bytes of a Lean string literal (all literals used are ASCII). -/
def strBytes (s : String) : List Nat :=
  s.data.map Char.toNat

/-- Decimal rendering of a natural number, as ASCII bytes. -/
def natDec (n : Nat) : List Nat :=
  (Nat.toDigits 10 n).map Char.toNat

/-- Outcome of `parse_lorawan_id`: either a normal return of
`Option<Vec<u8>>`-level data (`ret`), or a Rust `panic` carrying its
formatted message bytes (`panicMsg`). -/
inductive SlotOutcome where
  | ret : Option (List Nat) → SlotOutcome
  | panicMsg : List Nat → SlotOutcome
  deriving DecidableEq

/-- Bytes of the length-mismatch panic message of `parse_lorawan_id`:
the format string is
`Environment variable VAR has invalid length: L, expecting: E`. -/
def lengthMsg (var : List Nat) (l e : Nat) : List Nat :=
  strBytes ("Environment variable ") ++ var ++ strBytes (" has invalid length: ") ++
    natDec l ++ strBytes (", expecting: ") ++ natDec e

/-- Bytes of the malformed-hex panic message of `parse_lorawan_id`; the
apostrophe of the source text is spliced in as byte 39. -/
def malformedMsg (var : List Nat) (e : Nat) : List Nat :=
  strBytes ("Unable to parse ") ++ var ++ strBytes (" from environment, make sure it") ++
    [39] ++ strBytes ("s a valid hex string with length ") ++ natDec e

/-- Model of `parse_lorawan_id` from `build.rs`, with the decoded bytes
kept in the `Some` result (the source wraps them in a `Some(..)` debug
rendering, modelled separately by `fmtSome`). Absent and empty values
return `none`; a wrong length or a decode failure aborts via panic. -/
def parse_lorawan_id : Option (List Nat) → List Nat → Nat → SlotOutcome
  | none, _, _ => SlotOutcome.ret none
  | some s, var, len =>
    if s.length = 0 then SlotOutcome.ret none
    else if s.length % 2 = 1 ∨ s.length ≠ 2 * len then
      SlotOutcome.panicMsg (lengthMsg var s.length (2 * len))
    else
      match hex_to_bytes s with
      | some v => SlotOutcome.ret (some v)
      | none => SlotOutcome.panicMsg (malformedMsg var (2 * len))

/-- Variant of `parse_lorawan_id` with the odd-length disjunct removed
from the length test, used to state that the disjunct is redundant. -/
def parse_lorawan_id_even : Option (List Nat) → List Nat → Nat → SlotOutcome
  | none, _, _ => SlotOutcome.ret none
  | some s, var, len =>
    if s.length = 0 then SlotOutcome.ret none
    else if s.length ≠ 2 * len then
      SlotOutcome.panicMsg (lengthMsg var s.length (2 * len))
    else
      match hex_to_bytes s with
      | some v => SlotOutcome.ret (some v)
      | none => SlotOutcome.panicMsg (malformedMsg var (2 * len))

/-- Comma-and-space separated concatenation, as in the `Debug` rendering
of a `Vec`. -/
def sepCommaSpace : List (List Nat) → List Nat
  | [] => []
  | [x] => x
  | x :: y :: t => x ++ [44, 32] ++ sepCommaSpace (y :: t)

/-- Debug rendering of a `Vec<u8>`: decimal bytes between brackets. -/
def fmtVec (v : List Nat) : List Nat :=
  [91] ++ sepCommaSpace (v.map natDec) ++ [93]

/-- The `format` call of `parse_lorawan_id`: `Some(..)` around the debug
rendering of the decoded bytes. -/
def fmtSome (v : List Nat) : List Nat :=
  strBytes ("Some(") ++ fmtVec v ++ strBytes (")")

/-- Text a slot contributes to the generated file: `unwrap_or` of the
rendered value with the literal `None`; a panicking slot yields no text
because the build aborts. -/
def slotString : SlotOutcome → Option (List Nat)
  | SlotOutcome.ret none => some (strBytes ("None"))
  | SlotOutcome.ret (some v) => some (fmtSome v)
  | SlotOutcome.panicMsg _ => none

/-- Body of the `lorawan_keys.rs` text written by `main`, given the three
already-rendered slot texts; line continuations of the source format
string elide the indentation. -/
def render_constants (d a k : List Nat) : List Nat :=
  strBytes ("// Generated by build.rs\n") ++
    strBytes ("const DEVEUI: Option<[u8; 8]> = ") ++ d ++ strBytes (";\n") ++
    strBytes ("const APPEUI: Option<[u8; 8]> = ") ++ a ++ strBytes (";\n") ++
    strBytes ("const APPKEY: Option<[u8; 16]> = ") ++ k ++ strBytes (";\n")

/-- The key-file generation of `main`, with the process environment
abstracted as the three optional variable values; `none` when any slot
panics (the build aborts before writing). -/
def build_keys_file (dev app key : Option (List Nat)) : Option (List Nat) :=
  match slotString (parse_lorawan_id dev (strBytes ("LORA_DEVEUI")) 8),
      slotString (parse_lorawan_id app (strBytes ("LORA_APPEUI")) 8),
      slotString (parse_lorawan_id key (strBytes ("LORA_APPKEY")) 16) with
  | some d, some a, some k => some (render_constants d a k)
  | _, _, _ => none

/-- Membership of a byte in the claim character class 0-9, a-f, A-F. -/
def isHexDigitByte (b : Nat) : Bool :=
  decide ((48 ≤ b ∧ b ≤ 57) ∨ (97 ≤ b ∧ b ≤ 102) ∨ (65 ≤ b ∧ b ≤ 70))

/-- Lowercase hex character for a digit value below 16. -/
def hexLowerChar (d : Nat) : Nat :=
  if d < 10 then 48 + d else 87 + d

/-- ASCII lowercasing of one byte (maps A-Z to a-z). -/
def lowerByte (b : Nat) : Nat :=
  if 65 ≤ b ∧ b ≤ 90 then b + 32 else b

/-- Pairwise lowercase hex encoding of a byte sequence. -/
def encodeHexLower : List Nat → List Nat
  | [] => []
  | b :: t => hexLowerChar (b / 16) :: hexLowerChar (b % 16) :: encodeHexLower t

/-- Recursion principle consuming a byte list two bytes at a time. -/
def twoStepRec {P : List Nat → Prop} (h0 : P []) (h1 : ∀ c, P [c])
    (h2 : ∀ a b t, P t → P (a :: b :: t)) : ∀ s, P s
  | [] => h0
  | [c] => h1 c
  | a :: b :: t => h2 a b t (twoStepRec h0 h1 h2 t)

/-- Hex digit values never reach the continuation-byte range. -/
theorem hexDigitVal_none_of_big (c : Nat) (h : 128 ≤ c) : hexDigitVal c = none := by
  unfold hexDigitVal
  rw [if_neg (by omega), if_neg (by omega), if_neg (by omega)]

/-- Hex digit values are below 16. -/
theorem hexDigitVal_le (b d : Nat) (h : hexDigitVal b = some d) : d ≤ 15 := by
  unfold hexDigitVal at h
  by_cases h1 : 48 ≤ b ∧ b ≤ 57
  · rw [if_pos h1] at h; injection h with h; omega
  · rw [if_neg h1] at h
    by_cases h2 : 97 ≤ b ∧ b ≤ 102
    · rw [if_pos h2] at h; injection h with h; omega
    · rw [if_neg h2] at h
      by_cases h3 : 65 ≤ b ∧ b ≤ 70
      · rw [if_pos h3] at h; injection h with h; omega
      · rw [if_neg h3] at h; exact absurd h (by simp)

/-- Characterization of the char-boundary test. -/
theorem isCharBoundary_true_iff (s : List Nat) (i : Nat) :
    isCharBoundary s i = true ↔
      i = 0 ∨ i = s.length ∨ (i < s.length ∧ ¬ (128 ≤ s.getD i 0 ∧ s.getD i 0 < 192)) := by
  unfold isCharBoundary isCont
  by_cases h0 : i = 0
  · simp [h0]
  · by_cases h1 : i = s.length
    · simp [h0, h1]
    · by_cases h2 : i < s.length
      · simp [h0, h1, h2]
        omega
      · simp [h0, h1, h2]

/-- Parsing a slice that starts with a continuation byte fails. -/
theorem fromStrRadix16_cont_head (c : Nat) (l : List Nat) (h1 : 128 ≤ c) :
    fromStrRadix16 (c :: l) = none := by
  show (if c = 43 then if l.isEmpty then none else parseDigitsAcc l 0
    else parseDigitsAcc (c :: l) 0) = none
  rw [if_neg (by omega)]
  unfold parseDigitsAcc
  rw [hexDigitVal_none_of_big c h1]
  rfl

/-- A first byte that is neither a digit nor a plus sign fails `specPair`. -/
theorem specPair_none_left (a b : Nat) (h : hexDigitVal a = none) (h43 : a ≠ 43) :
    specPair a b = none := by
  unfold specPair
  rw [h]
  cases hb : hexDigitVal b with
  | none => rfl
  | some d =>
    show (if a = 43 then some d else none) = none
    exact if_neg h43

/-- A second byte that is not a digit fails `specPair`. -/
theorem specPair_none_right (a b : Nat) (h : hexDigitVal b = none) : specPair a b = none := by
  unfold specPair
  rw [h]
  cases ha : hexDigitVal a with
  | none => rfl
  | some d => rfl

/-- When both bytes are digits, `specPair` is the two-digit value. -/
theorem specPair_digits (a b d1 d2 : Nat) (ha : hexDigitVal a = some d1)
    (hb : hexDigitVal b = some d2) : specPair a b = some (16 * d1 + d2) := by
  unfold specPair
  rw [ha, hb]

/-- A plus sign followed by one digit gives that digit under `specPair`. -/
theorem specPair_plus (b d : Nat) (hb : hexDigitVal b = some d) : specPair 43 b = some d := by
  unfold specPair
  have h43v : hexDigitVal 43 = none := by decide
  rw [h43v, hb]
  show (if (43 : Nat) = 43 then some d else none) = some d
  exact if_pos rfl

/-- The spec decoder fails on any string starting with a continuation byte. -/
theorem specDecode_cont_head (c : Nat) (l : List Nat) (h1 : 128 ≤ c) :
    specDecode (c :: l) = none := by
  match l with
  | [] => rfl
  | d :: r =>
    unfold specDecode
    rw [specPair_none_left c d (hexDigitVal_none_of_big c h1) (by omega)]

/-- The modelled `from_str_radix` agrees with `specPair` on two-byte slices. -/
theorem fromStrRadix_pair (a b : Nat) : fromStrRadix16 [a, b] = specPair a b := by
  by_cases h43 : a = 43
  · subst h43
    have hL : fromStrRadix16 [43, b] = parseDigitsAcc [b] 0 := by
      show (if (43 : Nat) = 43 then if [b].isEmpty then none else parseDigitsAcc [b] 0
        else parseDigitsAcc [43, b] 0) = parseDigitsAcc [b] 0
      rw [if_pos rfl, if_neg (by simp)]
    rw [hL]
    unfold parseDigitsAcc
    cases hb : hexDigitVal b with
    | none =>
      rw [specPair_none_right 43 b hb]
      rfl
    | some d =>
      rw [specPair_plus b d hb]
      have hd := hexDigitVal_le b d hb
      show (if 16 * 0 + d ≤ 255 then parseDigitsAcc [] (16 * 0 + d) else none) = some d
      rw [if_pos (by omega)]
      show some (16 * 0 + d) = some d
      norm_num
  · have hL : fromStrRadix16 [a, b] = parseDigitsAcc [a, b] 0 := by
      show (if a = 43 then if [b].isEmpty then none else parseDigitsAcc [b] 0
        else parseDigitsAcc [a, b] 0) = parseDigitsAcc [a, b] 0
      rw [if_neg h43]
    rw [hL]
    unfold parseDigitsAcc
    cases ha : hexDigitVal a with
    | none =>
      rw [specPair_none_left a b ha h43]
      rfl
    | some d1 =>
      have hd1 := hexDigitVal_le a d1 ha
      show (if 16 * 0 + d1 ≤ 255 then parseDigitsAcc [b] (16 * 0 + d1) else none) = specPair a b
      rw [if_pos (by omega)]
      unfold parseDigitsAcc
      cases hb : hexDigitVal b with
      | none =>
        rw [specPair_none_right a b hb]
        rfl
      | some d2 =>
        rw [specPair_digits a b d1 d2 ha hb]
        have hd2 := hexDigitVal_le b d2 hb
        show (if 16 * (16 * 0 + d1) + d2 ≤ 255 then parseDigitsAcc [] (16 * (16 * 0 + d1) + d2)
          else none) = some (16 * d1 + d2)
        rw [if_pos (by omega)]
        show some (16 * (16 * 0 + d1) + d2) = some (16 * d1 + d2)
        norm_num

/-- Unfolding of one iterator step in terms of the slice bounds. -/
theorem pairAt_eq (s : List Nat) (j : Nat) :
    pairAt s j =
      if j + 2 ≤ s.length ∧ isCharBoundary s j = true ∧ isCharBoundary s (j + 2) = true
      then fromStrRadix16 ((s.drop j).take 2) else none := by
  unfold pairAt strGet
  by_cases h : j + 2 ≤ s.length ∧ isCharBoundary s j = true ∧ isCharBoundary s (j + 2) = true
  · rw [if_pos ⟨by omega, h.1, h.2.1, h.2.2⟩, if_pos h]
    have h2 : j + 2 - j = 2 := by omega
    rw [h2]
    rfl
  · rw [if_neg (fun hc => h ⟨hc.2.1, hc.2.2.1, hc.2.2.2⟩), if_neg h]
    rfl

/-- Dropping two leading bytes shifts interior char boundaries. -/
theorem boundary_shift (a b : Nat) (t : List Nat) (i : Nat) (h : 1 ≤ i) :
    isCharBoundary (a :: b :: t) (i + 2) = isCharBoundary t i := by
  have hg : (a :: b :: t).getD (i + 2) 0 = t.getD i 0 := rfl
  have hl : (a :: b :: t).length = t.length + 2 := rfl
  rw [Bool.eq_iff_iff, isCharBoundary_true_iff, isCharBoundary_true_iff, hg, hl]
  constructor
  · rintro (h0 | h1 | ⟨h2, h3⟩)
    · omega
    · right; left; omega
    · right; right; exact ⟨by omega, h3⟩
  · rintro (h0 | h1 | ⟨h2, h3⟩)
    · omega
    · right; left; omega
    · right; right; exact ⟨by omega, h3⟩

/-- The step at index 0 of a two-byte-or-longer string. -/
theorem pairAt_zero (a b : Nat) (t : List Nat) :
    pairAt (a :: b :: t) 0 =
      if isCharBoundary (a :: b :: t) 2 = true then fromStrRadix16 [a, b] else none := by
  rw [pairAt_eq]
  have h0 : isCharBoundary (a :: b :: t) 0 = true := by
    rw [isCharBoundary_true_iff]; left; rfl
  simp only [Nat.zero_add]
  have hl : 2 ≤ (a :: b :: t).length := by simp
  by_cases hb : isCharBoundary (a :: b :: t) 2 = true
  · rw [if_pos ⟨hl, h0, hb⟩, if_pos hb]
    rfl
  · rw [if_neg (fun hx => hb hx.2.2), if_neg hb]

/-- Shifting one iterator step across two consumed bytes. -/
theorem pairAt_shift (a b : Nat) (t : List Nat) (j : Nat) :
    pairAt (a :: b :: t) (j + 2) = pairAt t j := by
  have hl : (a :: b :: t).length = t.length + 2 := rfl
  have hdrop : (a :: b :: t).drop (j + 2) = t.drop j := rfl
  rw [pairAt_eq, pairAt_eq, hl, hdrop]
  have hb2 : isCharBoundary (a :: b :: t) (j + 2 + 2) = isCharBoundary t (j + 2) :=
    boundary_shift a b t (j + 2) (by omega)
  rw [hb2]
  by_cases hj : 1 ≤ j
  · rw [boundary_shift a b t j hj]
    by_cases hc : j + 2 ≤ t.length ∧ isCharBoundary t j = true ∧ isCharBoundary t (j + 2) = true
    · rw [if_pos ⟨by have := hc.1; omega, hc.2.1, hc.2.2⟩, if_pos hc]
    · rw [if_neg (fun hx => hc ⟨by have := hx.1; omega, hx.2.1, hx.2.2⟩), if_neg hc]
  · have hj0 : j = 0 := by omega
    subst hj0
    simp only [Nat.zero_add]
    cases t with
    | nil =>
      rw [if_neg (fun hx => by have h1 := hx.1; simp at h1),
        if_neg (fun hx => by have h1 := hx.1; simp at h1)]
    | cons c t2 =>
      have hb0 : isCharBoundary (c :: t2) 0 = true := by
        rw [isCharBoundary_true_iff]; left; rfl
      have hgc : (a :: b :: c :: t2).getD 2 0 = c := rfl
      have hlen3 : (a :: b :: c :: t2).length = t2.length + 3 := rfl
      by_cases hcont : 128 ≤ c ∧ c < 192
      · have hbF : ¬ isCharBoundary (a :: b :: c :: t2) 2 = true := by
          intro hT
          rw [isCharBoundary_true_iff, hgc, hlen3] at hT
          rcases hT with h0 | h1 | ⟨h2, h3⟩
          · omega
          · omega
          · exact h3 hcont
        rw [if_neg (fun hx => hbF hx.2.1)]
        by_cases hC : 2 ≤ (c :: t2).length ∧ isCharBoundary (c :: t2) 0 = true ∧
            isCharBoundary (c :: t2) 2 = true
        · rw [if_pos hC]
          have hsl : ((c :: t2).drop 0).take 2 = c :: t2.take 1 := rfl
          rw [hsl, fromStrRadix16_cont_head c _ hcont.1]
        · rw [if_neg hC]
      · have hbT : isCharBoundary (a :: b :: c :: t2) 2 = true := by
          rw [isCharBoundary_true_iff, hgc, hlen3]
          right; right
          exact ⟨by omega, hcont⟩
        rw [hbT, hb0]
        by_cases hC : 2 ≤ (c :: t2).length ∧ isCharBoundary (c :: t2) 2 = true
        · rw [if_pos ⟨by have := hC.1; omega, rfl, hC.2⟩, if_pos ⟨hC.1, rfl, hC.2⟩]
        · rw [if_neg (fun hx => hC ⟨by have := hx.1; omega, hx.2.2⟩),
            if_neg (fun hx => hC ⟨hx.1, hx.2.2⟩)]
/-- Shifting a whole collected run across two consumed bytes. -/
theorem mapCollect_shift (a b : Nat) (t : List Nat) (idxs : List Nat) :
    mapCollect (a :: b :: t) (idxs.map (fun i => i + 2)) = mapCollect t idxs := by
  induction idxs with
  | nil => rfl
  | cons i rest ih =>
    simp only [List.map_cons]
    unfold mapCollect
    rw [pairAt_shift, ih]

/-- The byte-level `hex_to_bytes` of the source coincides with the
pairwise specification decoder on every byte string. -/
theorem hex_eq_spec : ∀ s : List Nat, hex_to_bytes s = specDecode s := by
  refine twoStepRec ?_ ?_ ?_
  · decide
  · intro c
    simp [hex_to_bytes, specDecode]
  · intro a b t ih
    have hlen : (a :: b :: t).length = t.length + 2 := rfl
    by_cases hpar : t.length % 2 = 0
    · unfold hex_to_bytes
      rw [hlen, if_pos (by omega)]
      have hdiv : (t.length + 2) / 2 = t.length / 2 + 1 := by omega
      rw [hdiv, List.range_succ_eq_map]
      simp only [List.map_cons, List.map_map, Nat.mul_zero]
      have hmap : (List.range (t.length / 2)).map ((fun k => 2 * k) ∘ Nat.succ) =
          ((List.range (t.length / 2)).map (fun k => 2 * k)).map (fun i => i + 2) := by
        rw [List.map_map]
        apply List.map_congr_left
        intro k _
        simp
        omega
      rw [hmap]
      unfold mapCollect
      rw [mapCollect_shift]
      have hht : mapCollect t ((List.range (t.length / 2)).map (fun k => 2 * k)) =
          specDecode t := by
        rw [← ih]
        unfold hex_to_bytes
        rw [if_pos hpar]
      rw [hht, pairAt_zero]
      by_cases hb2 : isCharBoundary (a :: b :: t) 2 = true
      · rw [if_pos hb2, fromStrRadix_pair]
        rfl
      · rw [if_neg hb2]
        cases t with
        | nil =>
          exact absurd (by rw [isCharBoundary_true_iff]; right; left; rfl) hb2
        | cons c t2 =>
          have hcont : 128 ≤ c ∧ c < 192 := by
            by_contra hcc
            apply hb2
            rw [isCharBoundary_true_iff]
            right; right
            have hgc : (a :: b :: c :: t2).getD 2 0 = c := rfl
            have hl3 : (a :: b :: c :: t2).length = t2.length + 3 := rfl
            rw [hgc, hl3]
            exact ⟨by omega, hcc⟩
          have hsd := specDecode_cont_head c t2 hcont.1
          rw [hsd]
          unfold specDecode
          rw [hsd]
          cases hp : specPair a b <;> rfl
    · unfold hex_to_bytes
      rw [hlen, if_neg (by omega)]
      have ht : specDecode t = none := by
        rw [← ih]
        unfold hex_to_bytes
        rw [if_neg (by omega)]
      unfold specDecode
      rw [ht]
      cases hp : specPair a b <;> rfl

/-- A successful spec decode halves the length. -/
theorem specDecode_length : ∀ s v, specDecode s = some v → 2 * v.length = s.length := by
  refine twoStepRec ?_ ?_ ?_
  · intro v h
    injection h with h
    subst h
    rfl
  · intro c v h
    exact absurd h (by simp [specDecode])
  · intro a b t ih v h
    unfold specDecode at h
    cases hp : specPair a b with
    | none =>
      rw [hp] at h
      exact absurd h (by simp)
    | some x =>
      rw [hp] at h
      cases hq : specDecode t with
      | none =>
        rw [hq] at h
        exact absurd h (by simp)
      | some vs =>
        rw [hq] at h
        injection h with h
        subst h
        have := ih vs hq
        simp [List.length_cons]
        omega

/-- The spec decode of a string containing any non-ASCII byte fails. -/
theorem specDecode_nonascii : ∀ s, ∀ x ∈ s, 128 ≤ x → specDecode s = none := by
  refine twoStepRec ?_ ?_ ?_
  · intro x hx
    exact absurd hx (by simp)
  · intro c x hx h128
    rfl
  · intro a b t ih x hx h128
    rcases List.mem_cons.mp hx with hxa | hx2
    · subst hxa
      unfold specDecode
      rw [specPair_none_left x b (hexDigitVal_none_of_big x h128) (by omega)]
    · rcases List.mem_cons.mp hx2 with hxb | hxt
      · subst hxb
        unfold specDecode
        rw [specPair_none_right a x (hexDigitVal_none_of_big x h128)]
      · unfold specDecode
        rw [ih x hxt h128]
        cases hp : specPair a b <;> rfl

/-- A failed collect exhibits a failing index. -/
theorem mapCollect_none (s : List Nat) :
    ∀ idxs, mapCollect s idxs = none → ∃ i, i ∈ idxs ∧ pairAt s i = none := by
  intro idxs
  induction idxs with
  | nil =>
    intro h
    exact absurd h (by simp [mapCollect])
  | cons i rest ih =>
    intro h
    unfold mapCollect at h
    cases hp : pairAt s i with
    | none => exact ⟨i, List.mem_cons_self i rest, hp⟩
    | some bb =>
      rw [hp] at h
      cases hq : mapCollect s rest with
      | none =>
        obtain ⟨j, hj, hpj⟩ := ih hq
        exact ⟨j, List.mem_cons_of_mem i hj, hpj⟩
      | some bs =>
        rw [hq] at h
        exact absurd h (by simp)

/-- Every byte of the claim character class has a digit value whose
lowercase rendering is the lowercased byte. -/
theorem hexDigit_char (c : Nat) (h : isHexDigitByte c = true) :
    ∃ d, hexDigitVal c = some d ∧ d ≤ 15 ∧ hexLowerChar d = lowerByte c := by
  have h2 : (48 ≤ c ∧ c ≤ 57) ∨ (97 ≤ c ∧ c ≤ 102) ∨ (65 ≤ c ∧ c ≤ 70) := by
    simpa [isHexDigitByte] using h
  rcases h2 with h3 | h3 | h3
  · refine ⟨c - 48, ?_, by omega, ?_⟩
    · unfold hexDigitVal
      rw [if_pos h3]
    · unfold hexLowerChar lowerByte
      rw [if_pos (by omega), if_neg (by omega)]
      omega
  · refine ⟨c - 87, ?_, by omega, ?_⟩
    · unfold hexDigitVal
      rw [if_neg (by omega), if_pos h3]
    · unfold hexLowerChar lowerByte
      rw [if_neg (by omega), if_neg (by omega)]
      omega
  · refine ⟨c - 55, ?_, by omega, ?_⟩
    · unfold hexDigitVal
      rw [if_neg (by omega), if_neg (by omega), if_pos h3]
    · unfold hexLowerChar lowerByte
      rw [if_neg (by omega), if_pos (by omega)]
      omega

/-- Lowercase re-encoding of a successful spec decode of a digits-only
string reproduces the lowercased input. -/
theorem specDecode_roundtrip :
    ∀ s, (∀ x ∈ s, isHexDigitByte x = true) → ∀ v, specDecode s = some v →
      encodeHexLower v = s.map lowerByte := by
  refine twoStepRec ?_ ?_ ?_
  · intro hs v h
    injection h with h
    subst h
    rfl
  · intro c hs v h
    exact absurd h (by simp [specDecode])
  · intro a b t ih hs v h
    obtain ⟨d1, hd1, hb1, hc1⟩ := hexDigit_char a (hs a (by simp))
    obtain ⟨d2, hd2, hb2, hc2⟩ := hexDigit_char b (hs b (by simp))
    unfold specDecode at h
    rw [specPair_digits a b d1 d2 hd1 hd2] at h
    cases hq : specDecode t with
    | none =>
      rw [hq] at h
      exact absurd h (by simp)
    | some vs =>
      rw [hq] at h
      injection h with h
      subst h
      unfold encodeHexLower
      have hdiv : (16 * d1 + d2) / 16 = d1 := by omega
      have hmod : (16 * d1 + d2) % 16 = d2 := by omega
      have hst : ∀ x ∈ t, isHexDigitByte x = true := by
        intro x hx
        exact hs x (List.mem_cons_of_mem a (List.mem_cons_of_mem b hx))
      rw [hdiv, hmod, hc1, hc2, ih hst vs hq]
      rfl

/-- Unfolding equation of `parse_lorawan_id` on a present value. -/
theorem parse_lorawan_id_some (s var : List Nat) (len : Nat) :
    parse_lorawan_id (some s) var len =
      if s.length = 0 then SlotOutcome.ret none
      else if s.length % 2 = 1 ∨ s.length ≠ 2 * len then
        SlotOutcome.panicMsg (lengthMsg var s.length (2 * len))
      else
        match hex_to_bytes s with
        | some v => SlotOutcome.ret (some v)
        | none => SlotOutcome.panicMsg (malformedMsg var (2 * len)) := rfl

/-- Unfolding equation of `parse_lorawan_id_even` on a present value. -/
theorem parse_lorawan_id_even_some (s var : List Nat) (len : Nat) :
    parse_lorawan_id_even (some s) var len =
      if s.length = 0 then SlotOutcome.ret none
      else if s.length ≠ 2 * len then
        SlotOutcome.panicMsg (lengthMsg var s.length (2 * len))
      else
        match hex_to_bytes s with
        | some v => SlotOutcome.ret (some v)
        | none => SlotOutcome.panicMsg (malformedMsg var (2 * len)) := rfl

/-- C1 (counterexample): `hex_to_bytes` succeeds on the string `+f`,
which contains the byte 43 (`+`), a character outside the class
0-9, a-f, A-F, refuting the claim that decoding succeeds only when
every character is in that class. -/
theorem decode_hex_accepts_plus_pair :
    hex_to_bytes (strBytes ("+f")) = some [15] ∧
      43 ∈ strBytes ("+f") ∧ isHexDigitByte 43 = false ∧
      (strBytes ("+f")).length % 2 = 0 := by decide

/-- C1 (amended): `hex_to_bytes` succeeds iff the byte length is even
and every adjacent two-byte pair parses under the `u8::from_str_radix`
base-16 grammar — two hex digits 0-9, a-f, A-F giving `16 * d1 + d2`,
or a `+` followed by one hex digit giving that digit — with the decoded
bytes returned in input order; this is stated as equality with the
pairwise specification decoder `specDecode`, which consumes the input
two bytes at a time and fails on odd length or any unparsable pair. -/
theorem decode_hex_eq_specDecode (s : List Nat) : hex_to_bytes s = specDecode s :=
  hex_eq_spec s

/-- C2: a successful decode of an even-length string whose bytes all lie
in 0-9, a-f, A-F yields exactly half as many bytes, and pairwise
lowercase re-encoding reproduces the input up to character case. -/
theorem decode_hex_roundtrip (s : List Nat) (hhex : ∀ x ∈ s, isHexDigitByte x = true)
    (he : s.length % 2 = 0) (v : List Nat) (hd : hex_to_bytes s = some v) :
    v.length = s.length / 2 ∧ encodeHexLower v = s.map lowerByte := by
  have hsd : specDecode s = some v := by
    rw [← hex_eq_spec]
    exact hd
  have hl := specDecode_length s v hsd
  exact ⟨by omega, specDecode_roundtrip s hhex v hsd⟩

/-- Witness for C2 at the input `0aF2`. -/
theorem decode_hex_roundtrip_witness :
    ([10, 242] : List Nat).length = (strBytes ("0aF2")).length / 2 ∧
      encodeHexLower [10, 242] = (strBytes ("0aF2")).map lowerByte :=
  decode_hex_roundtrip (strBytes ("0aF2")) (by decide) (by decide) [10, 242] (by decide)

/-- C3: a present, non-empty value whose length differs from twice the
expected length makes `parse_lorawan_id` abort with the invalid-length
message, and that message contains the variable name, the actual length
and the expected length `2 * len` as substrings. -/
theorem resolve_slot_length_mismatch (s var : List Nat) (len : Nat) (hne : s.length ≠ 0)
    (hlen : s.length ≠ 2 * len) :
    parse_lorawan_id (some s) var len =
        SlotOutcome.panicMsg (lengthMsg var s.length (2 * len)) ∧
      (∃ p q, lengthMsg var s.length (2 * len) = p ++ var ++ q) ∧
      (∃ p q, lengthMsg var s.length (2 * len) = p ++ natDec s.length ++ q) ∧
      (∃ p q, lengthMsg var s.length (2 * len) = p ++ natDec (2 * len) ++ q) := by
  refine ⟨?_, ?_, ?_, ?_⟩
  · rw [parse_lorawan_id_some, if_neg hne, if_pos (Or.inr hlen)]
  · exact ⟨strBytes ("Environment variable "),
      strBytes (" has invalid length: ") ++ natDec s.length ++ strBytes (", expecting: ") ++
        natDec (2 * len),
      by simp [lengthMsg]⟩
  · exact ⟨strBytes ("Environment variable ") ++ var ++ strBytes (" has invalid length: "),
      strBytes (", expecting: ") ++ natDec (2 * len),
      by simp [lengthMsg]⟩
  · exact ⟨strBytes ("Environment variable ") ++ var ++ strBytes (" has invalid length: ") ++
      natDec s.length ++ strBytes (", expecting: "), [],
      by simp [lengthMsg]⟩

/-- Witness for C3 at the slot value `001122` with variable `DEVEUI`
and expected byte length 8. -/
theorem resolve_slot_length_mismatch_witness :
    parse_lorawan_id (some (strBytes ("001122"))) (strBytes ("DEVEUI")) 8 =
        SlotOutcome.panicMsg (lengthMsg (strBytes ("DEVEUI")) 6 16) ∧
      (∃ p q, lengthMsg (strBytes ("DEVEUI")) 6 16 = p ++ strBytes ("DEVEUI") ++ q) ∧
      (∃ p q, lengthMsg (strBytes ("DEVEUI")) 6 16 = p ++ natDec 6 ++ q) ∧
      (∃ p q, lengthMsg (strBytes ("DEVEUI")) 6 16 = p ++ natDec 16 ++ q) :=
  resolve_slot_length_mismatch (strBytes ("001122")) (strBytes ("DEVEUI")) 8
    (by decide) (by decide)

/-- C4: an absent value and a present-but-empty value both resolve to
the absent result, with no abort, for every variable name and expected
length. -/
theorem resolve_slot_absent_empty (var : List Nat) (len : Nat) :
    parse_lorawan_id none var len = SlotOutcome.ret none ∧
      parse_lorawan_id (some []) var len = SlotOutcome.ret none := by
  constructor
  · rfl
  · rw [parse_lorawan_id_some, if_pos List.length_nil]

/-- C5 (counterexample): with expected length 0, the empty value has
length exactly `2 * 0` and decodes successfully to `[]`, yet
`parse_lorawan_id` returns the absent result rather than a present one,
because the empty-value check runs first. -/
theorem resolve_slot_empty_zero_len :
    ([] : List Nat).length = 2 * 0 ∧ hex_to_bytes [] = some [] ∧
      parse_lorawan_id (some []) (strBytes ("DEVEUI")) 0 = SlotOutcome.ret none ∧
      SlotOutcome.ret (none : Option (List Nat)) ≠ SlotOutcome.ret (some []) := by decide

/-- C5 (amended): a present, non-empty value of length exactly
`2 * len` on which the decoder succeeds resolves to a present result
wrapping the decoded bytes, and those bytes number exactly `len`. -/
theorem resolve_slot_present_decodes (s var : List Nat) (len : Nat) (v : List Nat)
    (hne : s.length ≠ 0) (hl : s.length = 2 * len) (hd : hex_to_bytes s = some v) :
    parse_lorawan_id (some s) var len = SlotOutcome.ret (some v) ∧ v.length = len := by
  constructor
  · rw [parse_lorawan_id_some, if_neg hne, if_neg (by omega), hd]
  · have hsd : specDecode s = some v := by
      rw [← hex_eq_spec]
      exact hd
    have := specDecode_length s v hsd
    omega

/-- Witness for C5 (amended) at the claim example: value
`0011223344556677`, variable `DEVEUI`, expected byte length 8. -/
theorem resolve_slot_present_decodes_witness :
    parse_lorawan_id (some (strBytes ("0011223344556677"))) (strBytes ("DEVEUI")) 8 =
        SlotOutcome.ret (some [0, 17, 34, 51, 68, 85, 102, 119]) ∧
      ([0, 17, 34, 51, 68, 85, 102, 119] : List Nat).length = 8 :=
  resolve_slot_present_decodes (strBytes ("0011223344556677")) (strBytes ("DEVEUI")) 8
    [0, 17, 34, 51, 68, 85, 102, 119] (by decide) (by decide) (by decide)

/-- C6: a present value of length exactly `2 * len` on which the decoder
fails makes `parse_lorawan_id` abort with the malformed-hex message, and
that message contains the variable name and the expected length
`2 * len` as substrings. -/
theorem resolve_slot_malformed_hex (s var : List Nat) (len : Nat)
    (hl : s.length = 2 * len) (hd : hex_to_bytes s = none) :
    parse_lorawan_id (some s) var len = SlotOutcome.panicMsg (malformedMsg var (2 * len)) ∧
      (∃ p q, malformedMsg var (2 * len) = p ++ var ++ q) ∧
      (∃ p q, malformedMsg var (2 * len) = p ++ natDec (2 * len) ++ q) := by
  have hne : s.length ≠ 0 := by
    intro h0
    have hsnil : s = [] := List.length_eq_zero.mp h0
    rw [hsnil] at hd
    exact absurd hd (by decide)
  refine ⟨?_, ?_, ?_⟩
  · rw [parse_lorawan_id_some, if_neg hne, if_neg (by omega), hd]
  · exact ⟨strBytes ("Unable to parse "),
      strBytes (" from environment, make sure it") ++ [39] ++
        strBytes ("s a valid hex string with length ") ++ natDec (2 * len),
      by simp [malformedMsg]⟩
  · exact ⟨strBytes ("Unable to parse ") ++ var ++ strBytes (" from environment, make sure it") ++
      [39] ++ strBytes ("s a valid hex string with length "), [],
      by simp [malformedMsg]⟩

/-- Witness for C6 at the claim example: value `00112233445566zz`,
variable `DEVEUI`, expected byte length 8. -/
theorem resolve_slot_malformed_hex_witness :
    parse_lorawan_id (some (strBytes ("00112233445566zz"))) (strBytes ("DEVEUI")) 8 =
        SlotOutcome.panicMsg (malformedMsg (strBytes ("DEVEUI")) 16) ∧
      (∃ p q, malformedMsg (strBytes ("DEVEUI")) 16 = p ++ strBytes ("DEVEUI") ++ q) ∧
      (∃ p q, malformedMsg (strBytes ("DEVEUI")) 16 = p ++ natDec 16 ++ q) :=
  resolve_slot_malformed_hex (strBytes ("00112233445566zz")) (strBytes ("DEVEUI")) 8
    (by decide) (by decide)

/-- C7: with the device and application identifiers unset and the
application key set to 32 `a` characters (sixteen `0xAA` bytes), the
generated constants file declares, in order, `DEVEUI` and `APPEUI` as
absent optional 8-byte arrays and `APPKEY` as a present optional
16-byte array holding sixteen `170` bytes. -/
theorem generated_keys_file_appkey_aa :
    build_keys_file none none (some (List.replicate 32 97)) =
      some (strBytes ("// Generated by build.rs\nconst DEVEUI: Option<[u8; 8]> = None;\nconst APPEUI: Option<[u8; 8]> = None;\nconst APPKEY: Option<[u8; 16]> = Some([170, 170, 170, 170, 170, 170, 170, 170, 170, 170, 170, 170, 170, 170, 170, 170]);\n")) := by
  decide

/-- C8: the decoder is a total function of the byte string (asking for a
slice out of range or across a UTF-8 char boundary yields `none` through
the checked `strGet`, never a panic), and any input containing a
non-ASCII byte — in particular any multi-byte character — decodes to
`none`. -/
theorem decode_hex_nonascii_none (s : List Nat) (x : Nat) (hx : x ∈ s) (h128 : 128 ≤ x) :
    hex_to_bytes s = none := by
  rw [hex_eq_spec]
  exact specDecode_nonascii s x hx h128

/-- Witness for C8 at the bytes of the string `0<e-acute>0` (a two-byte
character between two ASCII digits). -/
theorem decode_hex_nonascii_none_witness :
    hex_to_bytes [48, 195, 169, 48] = none :=
  decode_hex_nonascii_none [48, 195, 169, 48] 195 (by decide) (by decide)

/-- C9: the odd-length disjunct of the length test is redundant —
`parse_lorawan_id` coincides with the variant whose test is only
`length differs from 2 * len` — and when the length equals `2 * len` it
is even, so the odd-length branch of `hex_to_bytes` is not taken and
any decode failure exhibits a failing two-character pair. -/
theorem parse_odd_check_redundant (s var : List Nat) (len : Nat) :
    parse_lorawan_id (some s) var len = parse_lorawan_id_even (some s) var len ∧
      (s.length = 2 * len →
        s.length % 2 = 0 ∧
          (hex_to_bytes s = none → ∃ k, k < s.length / 2 ∧ pairAt s (2 * k) = none)) := by
  constructor
  · rw [parse_lorawan_id_some, parse_lorawan_id_even_some]
    by_cases h0 : s.length = 0
    · rw [if_pos h0, if_pos h0]
    · rw [if_neg h0, if_neg h0]
      by_cases h2 : s.length = 2 * len
      · rw [if_neg (by omega), if_neg (by omega)]
      · rw [if_pos (by omega), if_pos h2]
  · intro hl
    refine ⟨by omega, ?_⟩
    intro hd
    unfold hex_to_bytes at hd
    rw [if_pos (by omega)] at hd
    obtain ⟨i, hi, hpi⟩ := mapCollect_none s _ hd
    obtain ⟨k, hk, hki⟩ := List.mem_map.mp hi
    refine ⟨k, List.mem_range.mp hk, ?_⟩
    show pairAt s (2 * k) = none
    rw [show 2 * k = i from hki]
    exact hpi

/-- Witness for C9 at the value `zz` with expected byte length 1. -/
theorem parse_odd_check_redundant_witness :
    (parse_lorawan_id (some (strBytes ("zz"))) (strBytes ("X")) 1 =
        parse_lorawan_id_even (some (strBytes ("zz"))) (strBytes ("X")) 1) ∧
      (strBytes ("zz")).length % 2 = 0 ∧
      (∃ k, k < (strBytes ("zz")).length / 2 ∧ pairAt (strBytes ("zz")) (2 * k) = none) :=
  ⟨(parse_odd_check_redundant (strBytes ("zz")) (strBytes ("X")) 1).1,
    ((parse_odd_check_redundant (strBytes ("zz")) (strBytes ("X")) 1).2 (by decide)).1,
    ((parse_odd_check_redundant (strBytes ("zz")) (strBytes ("X")) 1).2 (by decide)).2 (by decide)⟩

/-- C10: the variable name does not influence any normal (non-panicking)
result of `parse_lorawan_id` — a run that returns with one name returns
the identical result with any other name; the name only appears in the
text of panic messages. -/
theorem resolve_slot_name_independent (val : Option (List Nat)) (v1 v2 : List Nat)
    (len : Nat) (r : Option (List Nat))
    (h : parse_lorawan_id val v1 len = SlotOutcome.ret r) :
    parse_lorawan_id val v2 len = SlotOutcome.ret r := by
  cases val with
  | none => exact h
  | some s =>
    rw [parse_lorawan_id_some] at h ⊢
    by_cases h0 : s.length = 0
    · rw [if_pos h0] at h ⊢
      exact h
    · rw [if_neg h0] at h ⊢
      by_cases hc : s.length % 2 = 1 ∨ s.length ≠ 2 * len
      · rw [if_pos hc] at h
        exact SlotOutcome.noConfusion h
      · rw [if_neg hc] at h ⊢
        cases hx : hex_to_bytes s with
        | some v =>
          rw [hx] at h
          exact h
        | none =>
          rw [hx] at h
          exact SlotOutcome.noConfusion h

/-- Witness for C10: the value `00` resolves identically under the
names `A` and `B`. -/
theorem resolve_slot_name_independent_witness :
    parse_lorawan_id (some (strBytes ("00"))) (strBytes ("B")) 1 =
      SlotOutcome.ret (some [0]) :=
  resolve_slot_name_independent (some (strBytes ("00"))) (strBytes ("A")) (strBytes ("B")) 1
    (some [0]) (by decide)
